import Mathlib

/-!
# multi-tenant-subscription-fetch: token cache, silent credential, discovery loops

A shallow embedding of `main.go`.

* Go values returned as `(res, err)` are pairs `ρ × Option Error`; `err == nil` is `none`.
* An external collaborator (marshaler, unmarshaler, identity client, pager, SDK
  constructor) is a record of functions over a state it owns, passed in and out
  explicitly; the code under study is a function of these records.
* A `[]byte` is a slice header (`Slice`) pointing into a backing array; the backing
  arrays live in a `Heap` that the code and its collaborators pass along. Storing or
  handing over a slice copies the header, never the bytes, as in Go.
* `map[string][]byte` is a total function `String → Option Slice` (`none` = key absent).
  The only `msalCache` the program builds is `make(map[string][]byte)` (line 24), so the
  map is always initialised. The map itself is reachable only through the unexported
  field `store`, which only lines 119 and 124 touch.
* `context.Context` carries no data the code reads and is left out.
-/

namespace MultiTenantFetch

/-! ## Data model -/

/-- Go `error` value, identified by its message. -/
abbrev Error := String

/-- The bytes a Go `[]byte` reads. -/
abbrev Blob := List UInt8

/-- Go `time.Time`, as a number of seconds; `0` is the zero value. -/
abbrev Time := Int

/-- Header of a Go `[]byte`: the address of the backing array it points into, the offset
of its first byte there, and its length. (The capacity is never read by the program.) -/
structure Slice where
  array : Nat
  off : Nat
  len : Nat
deriving DecidableEq, Repr

/-- Memory holding the backing arrays of byte slices, by address. -/
abbrev Heap := Nat → Blob

/-- Memory in which every backing array is empty. -/
def Heap.empty : Heap := fun _ => []

/-- Memory after the backing array at `array` has been given the content `bytes`. -/
def Heap.write (h : Heap) (array : Nat) (bytes : Blob) : Heap :=
  fun a => if a = array then bytes else h a

/-- The bytes a slice reads in a given memory. -/
def Slice.read (s : Slice) (h : Heap) : Blob := ((h s.array).drop s.off).take s.len

/-- Capability `cache.Marshaler`: `Marshal() ([]byte, error)`, over its own state `μ` and
the memory, which it may write (for instance a buffer it returned earlier). -/
structure Marshaler (μ : Type) where
  Marshal : μ → Heap → (Slice × Option Error) × μ × Heap

/-- Capability `cache.Unmarshaler`: `Unmarshal([]byte) error`, over its target state `υ`
and the memory, which it may write (for instance through the slice it is handed). -/
structure Unmarshaler (υ : Type) where
  Unmarshal : Slice → υ → Heap → Option Error × υ × Heap

/-- Type `msalCache` (line 113): `store map[string][]byte`. -/
structure msalCache where
  store : String → Option Slice

/-- Value `&msalCache{store: make(map[string][]byte)}` of lines 23-25. -/
def msalCache.new : msalCache := { store := fun _ => none }

/-- What a reader of the cache sees under a key in a given memory: the bytes of the slice
the key is bound to, or `none` for an absent key. -/
def msalCache.view (c : msalCache) (h : Heap) (key : String) : Option Blob :=
  (c.store key).map fun s => s.read h

/-- Method `msalCache.Export` (lines 117-121):
`if v, err := m.Marshal(); err == nil { c.store[key] = v }`.
The slice `v` is stored as returned, uncopied. Returns the cache, the marshaler state and
the memory after the call; Go's method has no result. -/
def msalCache.Export {μ : Type} (c : msalCache) (m : Marshaler μ) (ms : μ) (h : Heap)
    (key : String) : msalCache × μ × Heap :=
  match m.Marshal ms h with
  | ((v, none), ms1, h1) =>
      ({ store := fun k => if k = key then some v else c.store k }, ms1, h1)
  | ((_, some _), ms1, h1) => (c, ms1, h1)

/-- Method `msalCache.Replace` (lines 123-127):
`if v, has := c.store[key]; has { _ = u.Unmarshal(v) }`.
The unmarshaler is handed the map's own slice. Returns the cache, the unmarshaler state
and the memory after the call; Go's method has no result. -/
def msalCache.Replace {υ : Type} (c : msalCache) (u : Unmarshaler υ) (us : υ) (h : Heap)
    (key : String) : msalCache × υ × Heap :=
  match c.store key with
  | some v => (c, (u.Unmarshal v us h).2)
  | none => (c, us, h)

/-- What a reader sees under a key in the state an `Export` or `Replace` returned. -/
def viewAfter {σ : Type} (r : msalCache × σ × Heap) (key : String) : Option Blob :=
  r.1.view r.2.2 key

/-- A further `Export` by the same marshaler, run in the state an `Export` returned. -/
def exportAgain {μ : Type} (m : Marshaler μ) (key : String) (r : msalCache × μ × Heap) :
    msalCache × μ × Heap :=
  r.1.Export m r.2.1 r.2.2 key

/-- Test double: an unmarshaler that behaves as `u` and also appends the bytes of every
slice it is handed, as they read at the time of the call, to a call log kept next to
`u`'s state. -/
def Unmarshaler.recording {υ : Type} (u : Unmarshaler υ) : Unmarshaler (υ × List Blob) where
  Unmarshal v s h :=
    ((u.Unmarshal v s.1 h).1, ((u.Unmarshal v s.1 h).2.1, s.2 ++ [v.read h]),
      (u.Unmarshal v s.1 h).2.2)

/-- Type `public.Account`: the handle of the signed-in user. -/
structure Account where
  HomeAccountID : String
deriving DecidableEq, Repr

/-- Type `public.AuthResult`, the fields the program reads. -/
structure AuthResult where
  AccessToken : String
  ExpiresOn : Time
deriving DecidableEq, Repr

/-- Type `azcore.AccessToken`. -/
structure AccessToken where
  Token : String
  ExpiresOn : Time
deriving DecidableEq, Repr

/-- Type `policy.TokenRequestOptions`, the field the program reads. -/
structure TokenRequestOptions where
  Scopes : List String
deriving DecidableEq, Repr

/-- Capability `public.Client`, the method the program calls after sign-in:
`AcquireTokenSilent(ctx, scopes, WithSilentAccount(account)) (AuthResult, error)`,
acting on the state `ω` of the world outside the program. -/
structure Client (ω : Type) where
  AcquireTokenSilent : List String → Account → ω → (AuthResult × Option Error) × ω

/-- Type `msalPublicAppCredential` (lines 136-139). -/
structure msalPublicAppCredential (ω : Type) where
  client : Client ω
  account : Account

/-- Method `msalPublicAppCredential.GetToken` (lines 141-151). -/
def msalPublicAppCredential.GetToken {ω : Type} (cred : msalPublicAppCredential ω)
    (options : TokenRequestOptions) (w : ω) : (AccessToken × Option Error) × ω :=
  match cred.client.AcquireTokenSilent options.Scopes cred.account w with
  | ((_, some err), w1) => (({ Token := "", ExpiresOn := 0 }, some err), w1)
  | ((res, none), w1) => (({ Token := res.AccessToken, ExpiresOn := res.ExpiresOn }, none), w1)

/-- Test double: a client that behaves as `cl` and also appends the arguments of every
silent acquisition to a call log kept next to the world state. -/
def Client.recording {ω : Type} (cl : Client ω) : Client (ω × List (List String × Account)) where
  AcquireTokenSilent scopes account s :=
    ((cl.AcquireTokenSilent scopes account s.1).1,
      ((cl.AcquireTokenSilent scopes account s.1).2, s.2 ++ [(scopes, account)]))

/-! ## Discovery loops (function `main`, lines 55-105) -/

/-- Constant `AzCLIClientID` (line 17). -/
def AzCLIClientID : String := "04b07795-8ddb-461a-bbee-02f9e1bf7b46"

/-- Constant `ManagementScope` (line 18). -/
def ManagementScope : String := "https://management.azure.com//.default"

/-- Type `armsubscriptions.TenantIDDescription`, the fields the program reads; a Go
`*string` is an `Option String`, `nil` being `none`. -/
structure TenantIDDescription where
  DisplayName : Option String
  TenantID : Option String
deriving DecidableEq, Repr

/-- Type `armsubscriptions.TenantsClientListResponse`: `Value []*TenantIDDescription`. -/
structure TenantsClientListResponse where
  Value : List (Option TenantIDDescription)
deriving DecidableEq, Repr

/-- Type `armsubscriptions.Subscription`, the fields the program reads. -/
structure Subscription where
  DisplayName : Option String
  ID : Option String
  TenantID : Option String
deriving DecidableEq, Repr

/-- Type `armsubscriptions.ClientListResponse`: `Value []*Subscription`. -/
structure ClientListResponse where
  Value : List (Option Subscription)
deriving DecidableEq, Repr

/-- Capability `runtime.Pager`: `More() bool` reads the pager, `NextPage(ctx) (ρ, error)`
advances it. The pager's own state is part of the world `ω`. -/
structure Pager (ω ρ : Type) where
  More : ω → Bool
  NextPage : ω → (ρ × Option Error) × ω

/-- Capability `armsubscriptions.TenantsClient`: `NewListPager(nil)`. -/
structure TenantsClient (ω : Type) where
  NewListPager : ω → Pager ω TenantsClientListResponse × ω

/-- Capability `armsubscriptions.Client`: `NewListPager(nil)`. -/
structure SubscriptionsClient (ω : Type) where
  NewListPager : ω → Pager ω ClientListResponse × ω

/-- The two library constructors the per-tenant loop calls.
`publicNew clientID authority` is `public.New(clientID, WithAuthority(authority),
WithCache(cache))`; every call of the program passes the one `cache` of line 23, which
therefore lives in the world. `NewClient cred` is `armsubscriptions.NewClient(cred, nil)`. -/
structure Env (ω : Type) where
  publicNew : String → String → ω → (Client ω × Option Error) × ω
  NewClient : msalPublicAppCredential ω → ω → (SubscriptionsClient ω × Option Error) × ω

/-- What the program does to the outside, in order: text written to standard output and
calls of its collaborators (with what they returned, for the pager). -/
inductive Event where
  | stdout (text : String)
  | publicNew (clientID authority : String)
  | newClient (account : Account)
  | newListPager
  | more (result : Bool)
  | tenantsPage (res : TenantsClientListResponse) (err : Option Error)
  | subscriptionsPage (res : ClientListResponse) (err : Option Error)
deriving DecidableEq, Repr

/-- State of a run of `main`: the world, the variable `allTenants`, the events so far. -/
structure Run (ω : Type) where
  world : ω
  allTenants : List String
  trace : List Event

/-- How a piece of `main` ends: it falls through (`done`), `log.Fatal(err)` prints the
error and exits (`fatal`), the goroutine panics (`panicked`: `log.Panic(err)` or a nil
dereference), or the model's step budget is used up (`outOfFuel`). -/
inductive Outcome (α : Type) where
  | done (st : α)
  | fatal (err : Error) (st : α)
  | panicked (msg : String) (st : α)
  | outOfFuel (st : α)

/-- Message of Go's run-time panic on `*p` with `p == nil`. -/
def nilDereference : String := "runtime error: invalid memory address or nil pointer dereference"

/-- Lines 64-67: `for _, tenantDescription := range res.Value`; each round prints
`*DisplayName` and `*TenantID`, then appends `*TenantID` to `allTenants`. -/
def tenantItems {ω : Type} : List (Option TenantIDDescription) → Run ω → Outcome (Run ω)
  | [], st => .done st
  | some ⟨some displayName, some tenantID⟩ :: rest, st =>
      tenantItems rest
        { st with
          allTenants := st.allTenants ++ [tenantID]
          trace := st.trace ++
            [.stdout ("*** discovered tenant: " ++ displayName ++ " (" ++ tenantID ++ ")\n")] }
  | _ :: _, st => .panicked nilDereference st

/-- Lines 58-68: `for pager.More() { res, err := pager.NextPage(ctx); ... }`. One unit of
fuel is spent for every evaluation of the loop condition. -/
def tenantPages {ω : Type} (pager : Pager ω TenantsClientListResponse) :
    Nat → Run ω → Outcome (Run ω)
  | 0, st => .outOfFuel st
  | fuel + 1, st =>
    if pager.More st.world then
      match pager.NextPage st.world with
      | ((res, some err), w) =>
          .fatal err { st with world := w
                               trace := st.trace ++ [.more true, .tenantsPage res (some err)] }
      | ((res, none), w) =>
          match tenantItems res.Value
              { st with world := w
                        trace := st.trace ++ [.more true, .tenantsPage res none] } with
          | .done st1 => tenantPages pager fuel st1
          | out => out
    else .done { st with trace := st.trace ++ [.more false] }

/-- Lines 55-70: `allTenants := []string{}`, the tenant pager loop, the count line. -/
def discoverTenants {ω : Type} (tenantClient : TenantsClient ω) (fuel : Nat) (st : Run ω) :
    Outcome (Run ω) :=
  match tenantPages (tenantClient.NewListPager st.world).1 fuel
      { world := (tenantClient.NewListPager st.world).2
        allTenants := []
        trace := st.trace ++ [.newListPager] } with
  | .done st1 =>
      .done { st1 with
        trace := st1.trace ++
          [.stdout ("*** discovered " ++ toString st1.allTenants.length ++ " tenants\n")] }
  | out => out

/-- Lines 100-103: `for _, subscription := range res.Value`; each round prints
`*DisplayName` and `*ID`, then appends `*TenantID` to `allTenants`. -/
def subscriptionItems {ω : Type} : List (Option Subscription) → Run ω → Outcome (Run ω)
  | [], st => .done st
  | some ⟨some displayName, some id, tenantID⟩ :: rest, st =>
      match tenantID with
      | some t =>
          subscriptionItems rest
            { st with
              allTenants := st.allTenants ++ [t]
              trace := st.trace ++
                [.stdout ("*** discovered subscription: " ++ displayName ++ " (" ++ id ++ ")\n")] }
      | none =>
          .panicked nilDereference
            { st with
              trace := st.trace ++
                [.stdout ("*** discovered subscription: " ++ displayName ++ " (" ++ id ++ ")\n")] }
  | _ :: _, st => .panicked nilDereference st

/-- Lines 94-104: `for subPager.More() { res, err := subPager.NextPage(ctx); ... }`. -/
def subscriptionPages {ω : Type} (subPager : Pager ω ClientListResponse) :
    Nat → Run ω → Outcome (Run ω)
  | 0, st => .outOfFuel st
  | fuel + 1, st =>
    if subPager.More st.world then
      match subPager.NextPage st.world with
      | ((res, some err), w) =>
          .fatal err { st with world := w
                               trace := st.trace ++ [.more true, .subscriptionsPage res (some err)] }
      | ((res, none), w) =>
          match subscriptionItems res.Value
              { st with world := w
                        trace := st.trace ++ [.more true, .subscriptionsPage res none] } with
          | .done st1 => subscriptionPages subPager fuel st1
          | out => out
    else .done { st with trace := st.trace ++ [.more false] }

/-- Line 76: `fmt.Sprintf("https://login.microsoftonline.com/%s", tenantId)`. -/
def authorityOf (tenantId : String) : String := "https://login.microsoftonline.com/" ++ tenantId

/-- Lines 73-104, the body of the per-tenant loop for one `tenantId`; `account` is
`interactiveRes.Account`. -/
def tenantBody {ω : Type} (env : Env ω) (account : Account) (fuel : Nat) (tenantId : String)
    (st : Run ω) : Outcome (Run ω) :=
  let authority := authorityOf tenantId
  let started := st.trace ++
    [.stdout ("*** listing subscriptions for tenant: " ++ tenantId ++ "\n"),
     .publicNew AzCLIClientID authority]
  match env.publicNew AzCLIClientID authority st.world with
  | ((_, some err), w) => .fatal err { st with world := w, trace := started }
  | ((tenantApp, none), w) =>
    let tenantCred : msalPublicAppCredential ω := { client := tenantApp, account := account }
    match env.NewClient tenantCred w with
    | ((_, some err), w1) =>
        .panicked err { st with world := w1, trace := started ++ [.newClient account] }
    | ((subscriptionsClient, none), w1) =>
        subscriptionPages (subscriptionsClient.NewListPager w1).1 fuel
          { st with world := (subscriptionsClient.NewListPager w1).2
                    trace := started ++ [.newClient account, .newListPager] }

/-- The rounds of `for _, tenantId := range ...` over the values `tenants`. -/
def tenantRange {ω : Type} (env : Env ω) (account : Account) (fuel : Nat) :
    List String → Run ω → Outcome (Run ω)
  | [], st => .done st
  | tenantId :: rest, st =>
      match tenantBody env account fuel tenantId st with
      | .done st1 => tenantRange env account fuel rest st1
      | out => out

/-- Lines 72-105: `for _, tenantId := range allTenants { ... }`. Go evaluates the range
expression once, before the first round: the loop walks the slice `allTenants` as it is
on entry, whatever line 102 appends to the variable meanwhile. -/
def subscriptionLoop {ω : Type} (env : Env ω) (account : Account) (fuel : Nat) (st : Run ω) :
    Outcome (Run ω) :=
  tenantRange env account fuel st.allTenants st

/-- Lines 55-105: tenant discovery, then the per-tenant loop. -/
def mainLoops {ω : Type} (env : Env ω) (tenantClient : TenantsClient ω) (account : Account)
    (fuel : Nat) (st : Run ω) : Outcome (Run ω) :=
  match discoverTenants tenantClient fuel st with
  | .done st1 => subscriptionLoop env account fuel st1
  | out => out

/-! ## Observations on a trace -/

/-- Arguments of a `public.New` call, for an event that is one. -/
def Event.publicNewArgs : Event → Option (String × String)
  | .publicNew clientID authority => some (clientID, authority)
  | _ => none

/-- The `(clientID, authority)` of every `public.New` call of a trace, in call order. -/
def publicNewCalls (trace : List Event) : List (String × String) :=
  trace.filterMap Event.publicNewArgs

/-- Whether an event is a call of `NextPage`, on either pager. -/
def Event.isNextPage : Event → Bool
  | .tenantsPage _ _ => true
  | .subscriptionsPage _ _ => true
  | _ => false

/-- Number of `NextPage` calls of a trace. -/
def nextPageCalls (trace : List Event) : Nat := trace.countP Event.isNextPage

/-- Tenant IDs of the subscriptions of a page. -/
def subscriptionTenants (res : ClientListResponse) : List String :=
  res.Value.filterMap fun s => s.bind Subscription.TenantID

/-- Tenant IDs of the subscriptions a successful subscription page fetch delivered. -/
def Event.fetchedSubscriptionTenants : Event → List String
  | .subscriptionsPage res none => subscriptionTenants res
  | _ => []

/-- Tenant IDs of all subscriptions discovered along a trace, in discovery order. -/
def discoveredSubscriptionTenants (trace : List Event) : List String :=
  trace.flatMap Event.fetchedSubscriptionTenants

/-! ## Runs of the per-tenant loop in which no step fails -/

/-- Whether lines 101-102 can read a page item: the item pointer and the `DisplayName`,
`ID` and `TenantID` pointers they dereference are all non-nil. -/
def Subscription.complete : Option Subscription → Bool
  | some ⟨some _, some _, some _⟩ => true
  | _ => false

/-- World after `n` calls of `NextPage`. -/
def Pager.after {ω ρ : Type} (pager : Pager ω ρ) : Nat → ω → ω
  | 0, w => w
  | n + 1, w => Pager.after pager n (pager.NextPage w).2

/-- From the world `w` on, the pager serves exactly the pages `pages` and no step of the
loop of lines 94-104 fails: while a page is left `More()` is true, `NextPage` returns it
with a nil error and every item of it can be read; after the last page `More()` is
false. -/
def PagerServes {ω : Type} (pager : Pager ω ClientListResponse) :
    List ClientListResponse → ω → Prop
  | [], w => pager.More w = false
  | res :: rest, w =>
      pager.More w = true ∧ (pager.NextPage w).1 = (res, none) ∧
      (∀ s ∈ res.Value, Subscription.complete s = true) ∧
      PagerServes pager rest (pager.NextPage w).2

/-- What the environment answers to the calls a round for `tenantId` makes in the world
`w` before its pager loop (lines 76-93): the error of `public.New`, called with the
tenant's authority; the error of `NewClient`, called with the credential bound to the new
client and `account`; the pager of the new subscriptions client; the world in which the
pager loop starts. -/
def roundSetup {ω : Type} (env : Env ω) (account : Account) (tenantId : String) (w : ω) :
    Option Error × Option Error × Pager ω ClientListResponse × ω :=
  let app := env.publicNew AzCLIClientID ("https://login.microsoftonline.com/" ++ tenantId) w
  let cli := env.NewClient { client := app.1.1, account := account } app.2
  let pg := cli.1.1.NewListPager cli.2
  (app.1.2, cli.1.2, pg.1, pg.2)

/-- From the world `w` on, no step of the per-tenant loop over `tenants` fails, and the
round of each tenant is served the pages listed for it: in every round `public.New` and
`NewClient` return a nil error and the round's pager serves that round's pages; the next
round starts in the world the pager loop leaves. -/
def RoundsSucceed {ω : Type} (env : Env ω) (account : Account) :
    List String → List (List ClientListResponse) → ω → Prop
  | [], [], _ => True
  | tenantId :: rest, served :: more, w =>
      (roundSetup env account tenantId w).1 = none ∧
      (roundSetup env account tenantId w).2.1 = none ∧
      PagerServes (roundSetup env account tenantId w).2.2.1 served
        (roundSetup env account tenantId w).2.2.2 ∧
      RoundsSucceed env account rest more
        ((roundSetup env account tenantId w).2.2.1.after served.length
          (roundSetup env account tenantId w).2.2.2)
  | _, _, _ => False

/-! ## Test doubles for the pagers and the library constructors -/

/-- A tenants page holding the given `(display name, tenant ID)` items. -/
def tenantsPageOf (items : List (String × String)) : TenantsClientListResponse :=
  { Value := items.map fun it => some { DisplayName := some it.1, TenantID := some it.2 } }

/-- Stub page source for tenants. The world is the list of pages not yet served;
`More()` is true exactly while pages remain, `NextPage` serves the next one. -/
def stubTenantsPager : Pager (List TenantsClientListResponse) TenantsClientListResponse where
  More w := !w.isEmpty
  NextPage w :=
    match w with
    | [] => (({ Value := [] }, some "no more pages"), [])
    | page :: rest => ((page, none), rest)

/-- Stub tenants client: `NewListPager` hands out the stub page source. -/
def stubTenantsClient : TenantsClient (List TenantsClientListResponse) where
  NewListPager w := (stubTenantsPager, w)

/-- Events of one round of the tenant pager loop on a page of the given items. -/
def tenantPageEvents (items : List (String × String)) : List Event :=
  [.more true, .tenantsPage (tenantsPageOf items) none] ++
    items.map fun it => .stdout ("*** discovered tenant: " ++ it.1 ++ " (" ++ it.2 ++ ")\n")

/-- A subscriptions page holding the given `(display name, ID, tenant ID)` items. -/
def subscriptionsPageOf (items : List (String × String × String)) : ClientListResponse :=
  { Value := items.map fun it =>
      some { DisplayName := some it.1, ID := some it.2.1, TenantID := some it.2.2 } }

/-- Script of one realm for the stub environment: what the realm-scoped silent
acquisition returns, and the subscription pages of the realm. -/
structure RealmStub where
  silent : AuthResult × Option Error
  pages : List (List (String × String × String))
deriving DecidableEq, Repr

/-- World of the stub environment: the scripts of the realms whose client has not been
built yet, the pages the current subscription pager has not served yet, and the log of
the silent acquisitions made. -/
structure StubWorld where
  upcoming : List RealmStub
  pending : List ClientListResponse
  silentCalls : List (List String × Account)
deriving DecidableEq, Repr

/-- Stub identity client of a realm: every silent acquisition is logged and returns the
realm's scripted result. -/
def stubClient (r : RealmStub) : Client StubWorld where
  AcquireTokenSilent scopes account w :=
    (r.silent, { w with silentCalls := w.silentCalls ++ [(scopes, account)] })

/-- Stub subscription pager bound to a credential. `More()` is true exactly while pages
remain. `NextPage` first asks the credential for a management token, as the SDK's
bearer-token policy does on every request; a credential error is the fetch's error,
otherwise the next page is served. -/
def stubSubscriptionsPager (cred : msalPublicAppCredential StubWorld) :
    Pager StubWorld ClientListResponse where
  More w := !w.pending.isEmpty
  NextPage w :=
    match cred.GetToken { Scopes := [ManagementScope] } w with
    | ((_, some err), w1) => (({ Value := [] }, some err), w1)
    | ((_, none), w1) =>
        match w1.pending with
        | [] => (({ Value := [] }, some "no more pages"), w1)
        | page :: rest => ((page, none), { w1 with pending := rest })

/-- Stub environment: the k-th `public.New` builds the client of the k-th scripted realm
and readies that realm's pages; `NewClient` binds a pager to the credential it is given. -/
def stubEnv : Env StubWorld where
  publicNew _ _ w :=
    match w.upcoming with
    | [] => ((stubClient ⟨(⟨"", 0⟩, some "no realm"), []⟩, some "unexpected public.New"), w)
    | r :: rest =>
        ((stubClient r, none),
          { w with upcoming := rest, pending := r.pages.map subscriptionsPageOf })
  NewClient cred w := (({ NewListPager := fun w1 => (stubSubscriptionsPager cred, w1) }, none), w)

/-- Stub identity client over a call counter: a fixed token `T` with expiry 3600 for the
management scope, the error `no cached grant` (next to a leftover result) for any other
scopes. -/
def sampleClient : Client Nat where
  AcquireTokenSilent scopes _ n :=
    if scopes = [ManagementScope] then ((⟨"T", 3600⟩, none), n + 1)
    else ((⟨"stale", 5⟩, some "no cached grant"), n + 1)

/-! ## A concrete run: five realms, the third one refusing silent acquisition -/

/-- The signed-in account of the sample runs. -/
def sampleAccount : Account := ⟨"user-1"⟩

/-- Realm `t1`: acquisition succeeds, one page with one subscription. -/
def sampleRealm1 : RealmStub :=
  ⟨(⟨"tok1", 100⟩, none), [[("Sub A", "/subscriptions/a", "t1")]]⟩

/-- Realm `t2`: acquisition succeeds, two pages with one subscription each. -/
def sampleRealm2 : RealmStub :=
  ⟨(⟨"tok2", 200⟩, none),
    [[("Sub B", "/subscriptions/b", "t2")], [("Sub C", "/subscriptions/c", "t9")]]⟩

/-- Realm `t3`: acquisition fails. -/
def sampleRealm3 : RealmStub :=
  ⟨(⟨"", 0⟩, some "AADSTS50076: interaction required"),
    [[("Sub D", "/subscriptions/d", "t3")]]⟩

/-- Realm `t4`: acquisition succeeds, one page with one subscription. -/
def sampleRealm4 : RealmStub :=
  ⟨(⟨"tok4", 400⟩, none), [[("Sub E", "/subscriptions/e", "t4")]]⟩

/-- Realm `t5`: acquisition succeeds, one empty page. -/
def sampleRealm5 : RealmStub := ⟨(⟨"tok5", 500⟩, none), [[]]⟩

/-- State on entry to the per-tenant loop after the discovery of `t1 .. t5`. -/
def sampleStart5 : Run StubWorld :=
  { world := ⟨[sampleRealm1, sampleRealm2, sampleRealm3, sampleRealm4, sampleRealm5], [], []⟩
    allTenants := ["t1", "t2", "t3", "t4", "t5"]
    trace := [] }

/-- Events of the complete rounds for `t1` and `t2` in the sample runs. -/
def sampleTrace12 : List Event :=
  [.stdout "*** listing subscriptions for tenant: t1\n",
   .publicNew AzCLIClientID "https://login.microsoftonline.com/t1",
   .newClient sampleAccount, .newListPager, .more true,
   .subscriptionsPage (subscriptionsPageOf [("Sub A", "/subscriptions/a", "t1")]) none,
   .stdout "*** discovered subscription: Sub A (/subscriptions/a)\n",
   .more false,
   .stdout "*** listing subscriptions for tenant: t2\n",
   .publicNew AzCLIClientID "https://login.microsoftonline.com/t2",
   .newClient sampleAccount, .newListPager, .more true,
   .subscriptionsPage (subscriptionsPageOf [("Sub B", "/subscriptions/b", "t2")]) none,
   .stdout "*** discovered subscription: Sub B (/subscriptions/b)\n",
   .more true,
   .subscriptionsPage (subscriptionsPageOf [("Sub C", "/subscriptions/c", "t9")]) none,
   .stdout "*** discovered subscription: Sub C (/subscriptions/c)\n",
   .more false]

/-- State in which the run from `sampleStart5` is ended by `log.Fatal`. -/
def sampleFatal5 : Run StubWorld :=
  { world :=
      { upcoming := [sampleRealm4, sampleRealm5]
        pending := [subscriptionsPageOf [("Sub D", "/subscriptions/d", "t3")]]
        silentCalls := List.replicate 4 ([ManagementScope], sampleAccount) }
    allTenants := ["t1", "t2", "t3", "t4", "t5", "t1", "t2", "t9"]
    trace := sampleTrace12 ++
      [.stdout "*** listing subscriptions for tenant: t3\n",
       .publicNew AzCLIClientID "https://login.microsoftonline.com/t3",
       .newClient sampleAccount, .newListPager, .more true,
       .subscriptionsPage { Value := [] } (some "AADSTS50076: interaction required")] }

/-- State on entry to the per-tenant loop after the discovery of `t1` and `t2` only. -/
def sampleStart2 : Run StubWorld :=
  { world := ⟨[sampleRealm1, sampleRealm2], [], []⟩
    allTenants := ["t1", "t2"]
    trace := [] }

/-- State in which the run from `sampleStart2` completes. -/
def sampleDone2 : Run StubWorld :=
  { world :=
      { upcoming := []
        pending := []
        silentCalls := List.replicate 3 ([ManagementScope], sampleAccount) }
    allTenants := ["t1", "t2", "t1", "t2", "t9"]
    trace := sampleTrace12 }

/-! ## Test doubles for the cache's collaborators -/

/-- A cache with two entries: `k` bound to the array at address 0 and `j` to the one at
address 1. -/
def sampleStore : msalCache :=
  ⟨fun k => if k = "k" then some ⟨0, 0, 1⟩ else if k = "j" then some ⟨1, 0, 1⟩ else none⟩

/-- Memory in which `sampleStore` reads `[9]` under `k` and `[7]` under `j`. -/
def sampleHeap : Heap := Heap.write (Heap.write Heap.empty 0 [9]) 1 [7]

/-- Marshaler that serialises `[1, 2]` into a new array on every call (address `5 + n`
on call `n`), as `json.Marshal` does. -/
def freshMarshaler : Marshaler Nat :=
  ⟨fun n h => ((⟨5 + n, 0, 2⟩, none), n + 1, Heap.write h (5 + n) [1, 2])⟩

/-- Marshaler that serialises `[1, 2]` into a new array and then reports an error. -/
def failingMarshaler : Marshaler Nat :=
  ⟨fun n h => ((⟨5 + n, 0, 2⟩, some "marshal failed"), n + 1, Heap.write h (5 + n) [1, 2])⟩

/-- Marshaler that serialises into one buffer it keeps (address 0) and returns that
buffer: `[1, 2]` on its first call, `[3, 4]` on every later one, without error. -/
def reusingMarshaler : Marshaler Nat :=
  ⟨fun n h => ((⟨0, 0, 2⟩, none), n + 1, Heap.write h 0 (if n = 0 then [1, 2] else [3, 4]))⟩

/-- Marshaler as `reusingMarshaler`, except that every call after the first reports an
error once the buffer has been overwritten. -/
def reusingFailingMarshaler : Marshaler Nat :=
  ⟨fun n h =>
    ((⟨0, 0, 2⟩, if n = 0 then none else some "marshal failed"), n + 1,
      Heap.write h 0 (if n = 0 then [1, 2] else [3, 4]))⟩

/-- Marshaler with two buffers (addresses 0 and 1): call 0 serialises `[7]` into the
first, call 1 serialises `[1, 2]` into the second, every later call `[1, 2]` into the
first again. -/
def alternatingMarshaler : Marshaler Nat :=
  ⟨fun n h =>
    if n = 0 then ((⟨0, 0, 1⟩, none), 1, Heap.write h 0 [7])
    else if n = 1 then ((⟨1, 0, 2⟩, none), 2, Heap.write h 1 [1, 2])
    else ((⟨0, 0, 2⟩, none), n + 1, Heap.write h 0 [1, 2])⟩

/-- Unmarshaler that reads the slice it is handed (adding its length to a counter) and
reports the blob as corrupt. -/
def rejectingUnmarshaler : Unmarshaler Nat :=
  ⟨fun v n h => (some "corrupt", n + (v.read h).length + 1, h)⟩

/-- Unmarshaler that reads the slice it is handed and accepts it. -/
def acceptingUnmarshaler : Unmarshaler Nat :=
  ⟨fun v n h => (none, n + (v.read h).length, h)⟩

/-- Unmarshaler that decodes in place: it overwrites the first byte of the slice it is
handed with `255`. -/
def scribblingUnmarshaler : Unmarshaler Nat :=
  ⟨fun v n h => (none, n + 1, Heap.write h v.array ((h v.array).set v.off 255))⟩

/-! ## Cache and credential: theorems -/

/-- C1, amended (export-failure isolation): when `Marshal` reports an error, `Export`
hands back the very same map (every key, the exported one included, stays bound to the
same slice; an absent key stays absent), and the error appears nowhere in what `Export`
produces. What a key reads afterwards is what it read before whenever the failing
`Marshal` has not itself changed the bytes of the slice stored under that key. -/
theorem export_failure_isolation {μ : Type} (c : msalCache) (m : Marshaler μ) (ms ms1 : μ)
    (h h1 : Heap) (key : String) (v : Slice) (e : Error)
    (hfail : m.Marshal ms h = ((v, some e), ms1, h1)) :
    c.Export m ms h key = (c, ms1, h1) ∧
    (∀ k, (c.Export m ms h key).1.store k = c.store k) ∧
    (∀ k, (∀ s, c.store k = some s → s.read h1 = s.read h) →
      viewAfter (c.Export m ms h key) k = c.view h k) := by
  have hx : c.Export m ms h key = (c, ms1, h1) := by
    simp [msalCache.Export, hfail]
  refine ⟨hx, fun k => by rw [hx], fun k hk => ?_⟩
  rw [hx]
  cases hs : c.store k with
  | none => simp [viewAfter, msalCache.view, hs]
  | some s => simp [viewAfter, msalCache.view, hs, hk s hs]

theorem export_failure_isolation_witness :
    sampleStore.Export failingMarshaler 0 sampleHeap "k" =
      (sampleStore, 1, Heap.write sampleHeap 5 [1, 2]) ∧
    viewAfter (sampleStore.Export failingMarshaler 0 sampleHeap "k") "k" = some [9] ∧
    viewAfter (sampleStore.Export failingMarshaler 0 sampleHeap "k") "j" = some [7] ∧
    viewAfter (sampleStore.Export failingMarshaler 0 sampleHeap "k") "absent" = none :=
  ⟨(export_failure_isolation sampleStore failingMarshaler 0 1 sampleHeap
      (Heap.write sampleHeap 5 [1, 2]) "k" ⟨5, 0, 2⟩ "marshal failed" rfl).1,
   ((export_failure_isolation sampleStore failingMarshaler 0 1 sampleHeap
      (Heap.write sampleHeap 5 [1, 2]) "k" ⟨5, 0, 2⟩ "marshal failed" rfl).2.2 "k"
      (fun s hs => by cases hs; rfl)).trans rfl,
   ((export_failure_isolation sampleStore failingMarshaler 0 1 sampleHeap
      (Heap.write sampleHeap 5 [1, 2]) "k" ⟨5, 0, 2⟩ "marshal failed" rfl).2.2 "j"
      (fun s hs => by cases hs; rfl)).trans rfl,
   ((export_failure_isolation sampleStore failingMarshaler 0 1 sampleHeap
      (Heap.write sampleHeap 5 [1, 2]) "k" ⟨5, 0, 2⟩ "marshal failed" rfl).2.2 "absent"
      (fun s hs => by cases hs)).trans rfl⟩

/-- C1 as stated fails: export `[1, 2]` under `k` from the marshaler that keeps one
buffer, then export again under `k` while the marshaler overwrites its buffer with
`[3, 4]` and reports an error. The second `Marshal` fails, `k` read `[1, 2]` before the
failed `Export`, and reads `[3, 4]` after it. -/
theorem export_failure_isolation_counterexample :
    (reusingFailingMarshaler.Marshal 1 (Heap.write Heap.empty 0 [1, 2])).1.2 =
      some "marshal failed" ∧
    viewAfter (msalCache.new.Export reusingFailingMarshaler 0 Heap.empty "k") "k" =
      some [1, 2] ∧
    viewAfter (exportAgain reusingFailingMarshaler "k"
      (msalCache.new.Export reusingFailingMarshaler 0 Heap.empty "k")) "k" = some [3, 4] ∧
    viewAfter (exportAgain reusingFailingMarshaler "k"
        (msalCache.new.Export reusingFailingMarshaler 0 Heap.empty "k")) "k" ≠
      viewAfter (msalCache.new.Export reusingFailingMarshaler 0 Heap.empty "k") "k" := by
  refine ⟨rfl, rfl, rfl, ?_⟩
  have h1 : viewAfter (msalCache.new.Export reusingFailingMarshaler 0 Heap.empty "k") "k" =
      some [1, 2] := rfl
  have h2 : viewAfter (exportAgain reusingFailingMarshaler "k"
      (msalCache.new.Export reusingFailingMarshaler 0 Heap.empty "k")) "k" = some [3, 4] := rfl
  rw [h1, h2]
  decide

/-- C8, amended (export success is last-writer-wins): when `Marshal` returns without
error a slice that reads `b`, the store after `Export` binds `key` to that slice, so `key`
reads `b` whatever it held before; every other key stays bound to the slice it was bound
to (or stays absent), and reads what it read before whenever `Marshal` has not itself
changed the bytes of that slice. -/
theorem export_last_writer_wins {μ : Type} (c : msalCache) (m : Marshaler μ) (ms ms1 : μ)
    (h h1 : Heap) (key : String) (s : Slice) (b : Blob)
    (hok : m.Marshal ms h = ((s, none), ms1, h1)) (hb : s.read h1 = b) :
    (c.Export m ms h key).1.store key = some s ∧
    viewAfter (c.Export m ms h key) key = some b ∧
    ∀ k, k ≠ key →
      (c.Export m ms h key).1.store k = c.store k ∧
      ((∀ sl, c.store k = some sl → sl.read h1 = sl.read h) →
        viewAfter (c.Export m ms h key) k = c.view h k) := by
  refine ⟨by simp [msalCache.Export, hok],
    by simp [viewAfter, msalCache.Export, msalCache.view, hok, hb],
    fun k hk => ⟨by simp [msalCache.Export, hok, hk], fun hsame => ?_⟩⟩
  cases hs : c.store k with
  | none => simp [viewAfter, msalCache.Export, msalCache.view, hok, hk, hs]
  | some sl => simp [viewAfter, msalCache.Export, msalCache.view, hok, hk, hs, hsame sl hs]

theorem export_last_writer_wins_witness :
    (sampleStore.Export freshMarshaler 0 sampleHeap "k").1.store "k" = some ⟨5, 0, 2⟩ ∧
    viewAfter (sampleStore.Export freshMarshaler 0 sampleHeap "k") "k" = some [1, 2] ∧
    (sampleStore.Export freshMarshaler 0 sampleHeap "k").1.store "j" = some ⟨1, 0, 1⟩ ∧
    viewAfter (sampleStore.Export freshMarshaler 0 sampleHeap "k") "j" = some [7] :=
  ⟨(export_last_writer_wins sampleStore freshMarshaler 0 1 sampleHeap
      (Heap.write sampleHeap 5 [1, 2]) "k" ⟨5, 0, 2⟩ [1, 2] rfl rfl).1,
   (export_last_writer_wins sampleStore freshMarshaler 0 1 sampleHeap
      (Heap.write sampleHeap 5 [1, 2]) "k" ⟨5, 0, 2⟩ [1, 2] rfl rfl).2.1,
   ((export_last_writer_wins sampleStore freshMarshaler 0 1 sampleHeap
      (Heap.write sampleHeap 5 [1, 2]) "k" ⟨5, 0, 2⟩ [1, 2] rfl rfl).2.2 "j" (by decide)).1,
   (((export_last_writer_wins sampleStore freshMarshaler 0 1 sampleHeap
      (Heap.write sampleHeap 5 [1, 2]) "k" ⟨5, 0, 2⟩ [1, 2] rfl rfl).2.2 "j" (by decide)).2
      (fun sl hsl => by cases hsl; rfl)).trans rfl⟩

/-- C8 as stated fails: export under `k` from the marshaler that keeps one buffer (`k`
reads `[1, 2]`), then export under `j` from the same marshaler, which serialises
`[3, 4]` into the same buffer. The second `Marshal` succeeds, and `k`, a key other than
the exported one, reads `[3, 4]` after the second `Export`. -/
theorem export_last_writer_wins_counterexample :
    (reusingMarshaler.Marshal 1 (Heap.write Heap.empty 0 [1, 2])).1.2 = none ∧
    viewAfter (msalCache.new.Export reusingMarshaler 0 Heap.empty "k") "k" = some [1, 2] ∧
    viewAfter (exportAgain reusingMarshaler "j"
      (msalCache.new.Export reusingMarshaler 0 Heap.empty "k")) "k" = some [3, 4] ∧
    viewAfter (exportAgain reusingMarshaler "j"
        (msalCache.new.Export reusingMarshaler 0 Heap.empty "k")) "k" ≠
      viewAfter (msalCache.new.Export reusingMarshaler 0 Heap.empty "k") "k" := by
  refine ⟨rfl, rfl, rfl, ?_⟩
  have h1 : viewAfter (msalCache.new.Export reusingMarshaler 0 Heap.empty "k") "k" =
      some [1, 2] := rfl
  have h2 : viewAfter (exportAgain reusingMarshaler "j"
      (msalCache.new.Export reusingMarshaler 0 Heap.empty "k")) "k" = some [3, 4] := rfl
  rw [h1, h2]
  decide

/-- C7, amended (cache idempotence): when two consecutive calls of `Marshal` both return
without error a slice reading `b`, then after two exports under `key` that key reads `b`,
as it does after one, and every other key is bound to the same slice as after one export
(or is absent in both). If the second `Marshal` has not itself changed the bytes of the
slices stored under the other keys, every key reads after two exports what it reads
after one. -/
theorem export_idempotent {μ : Type} (c : msalCache) (m : Marshaler μ) (ms ms1 ms2 : μ)
    (h h1 h2 : Heap) (key : String) (s1 s2 : Slice) (b : Blob)
    (hfirst : m.Marshal ms h = ((s1, none), ms1, h1)) (hb1 : s1.read h1 = b)
    (hsecond : m.Marshal ms1 h1 = ((s2, none), ms2, h2)) (hb2 : s2.read h2 = b) :
    viewAfter (c.Export m ms h key) key = some b ∧
    viewAfter (exportAgain m key (c.Export m ms h key)) key = some b ∧
    (∀ k, k ≠ key →
      (exportAgain m key (c.Export m ms h key)).1.store k = (c.Export m ms h key).1.store k) ∧
    ((∀ k, k ≠ key → ∀ sl, c.store k = some sl → sl.read h2 = sl.read h1) →
      ∀ k, viewAfter (exportAgain m key (c.Export m ms h key)) k =
        viewAfter (c.Export m ms h key) k) := by
  have hone : c.Export m ms h key =
      ({ store := fun k => if k = key then some s1 else c.store k }, ms1, h1) := by
    simp [msalCache.Export, hfirst]
  rw [hone]
  have htwo : exportAgain m key
      (({ store := fun k => if k = key then some s1 else c.store k }, ms1, h1) :
        msalCache × μ × Heap) =
      ({ store := fun k => if k = key then some s2 else c.store k }, ms2, h2) := by
    simp only [exportAgain, msalCache.Export, hsecond, Prod.mk.injEq, msalCache.mk.injEq,
      and_true]
    funext k
    by_cases hk : k = key <;> simp [hk]
  simp only [htwo]
  refine ⟨by simp [viewAfter, msalCache.view, hb1], by simp [viewAfter, msalCache.view, hb2],
    fun k hk => by simp [hk], fun hsame k => ?_⟩
  by_cases hk : k = key
  · simp [viewAfter, msalCache.view, hk, hb1, hb2]
  · cases hs : c.store k with
    | none => simp [viewAfter, msalCache.view, hk, hs]
    | some sl => simp [viewAfter, msalCache.view, hk, hs, hsame k hk sl hs]

theorem export_idempotent_witness :
    viewAfter (exportAgain freshMarshaler "k"
      (sampleStore.Export freshMarshaler 0 sampleHeap "k")) "k" = some [1, 2] ∧
    viewAfter (exportAgain freshMarshaler "k"
        (sampleStore.Export freshMarshaler 0 sampleHeap "k")) "j" =
      viewAfter (sampleStore.Export freshMarshaler 0 sampleHeap "k") "j" :=
  ⟨(export_idempotent sampleStore freshMarshaler 0 1 2 sampleHeap
      (Heap.write sampleHeap 5 [1, 2]) (Heap.write (Heap.write sampleHeap 5 [1, 2]) 6 [1, 2])
      "k" ⟨5, 0, 2⟩ ⟨6, 0, 2⟩ [1, 2] rfl rfl rfl rfl).2.1,
   (export_idempotent sampleStore freshMarshaler 0 1 2 sampleHeap
      (Heap.write sampleHeap 5 [1, 2]) (Heap.write (Heap.write sampleHeap 5 [1, 2]) 6 [1, 2])
      "k" ⟨5, 0, 2⟩ ⟨6, 0, 2⟩ [1, 2] rfl rfl rfl rfl).2.2.2
      (fun k _ sl hsl => by
        by_cases h0 : k = "k"
        · simp [sampleStore, h0] at hsl; subst hsl; rfl
        · by_cases h1 : k = "j"
          · simp [sampleStore, h0, h1] at hsl; subst hsl; rfl
          · simp [sampleStore, h0, h1] at hsl) "j"⟩

/-- C7 as stated fails: the marshaler with two buffers first fills the cache under `j`
(reading `[7]`, in its first buffer). Its next two calls both yield `[1, 2]` without
error, the first in its second buffer, the second in its first buffer again. After one
export under `k` the key `j` reads `[7]`; after two it reads `[1]`. -/
theorem export_idempotent_counterexample :
    (alternatingMarshaler.Marshal 1 (Heap.write Heap.empty 0 [7])).1 = (⟨1, 0, 2⟩, none) ∧
    (alternatingMarshaler.Marshal 2 (Heap.write (Heap.write Heap.empty 0 [7]) 1 [1, 2])).1 =
      (⟨0, 0, 2⟩, none) ∧
    viewAfter (exportAgain alternatingMarshaler "k"
      (msalCache.new.Export alternatingMarshaler 0 Heap.empty "j")) "k" = some [1, 2] ∧
    viewAfter (exportAgain alternatingMarshaler "k" (exportAgain alternatingMarshaler "k"
      (msalCache.new.Export alternatingMarshaler 0 Heap.empty "j"))) "k" = some [1, 2] ∧
    viewAfter (exportAgain alternatingMarshaler "k"
      (msalCache.new.Export alternatingMarshaler 0 Heap.empty "j")) "j" = some [7] ∧
    viewAfter (exportAgain alternatingMarshaler "k" (exportAgain alternatingMarshaler "k"
      (msalCache.new.Export alternatingMarshaler 0 Heap.empty "j"))) "j" = some [1] ∧
    viewAfter (exportAgain alternatingMarshaler "k" (exportAgain alternatingMarshaler "k"
        (msalCache.new.Export alternatingMarshaler 0 Heap.empty "j"))) "j" ≠
      viewAfter (exportAgain alternatingMarshaler "k"
        (msalCache.new.Export alternatingMarshaler 0 Heap.empty "j")) "j" := by
  refine ⟨rfl, rfl, rfl, rfl, rfl, rfl, ?_⟩
  have h1 : viewAfter (exportAgain alternatingMarshaler "k"
      (msalCache.new.Export alternatingMarshaler 0 Heap.empty "j")) "j" = some [7] := rfl
  have h2 : viewAfter (exportAgain alternatingMarshaler "k" (exportAgain alternatingMarshaler "k"
      (msalCache.new.Export alternatingMarshaler 0 Heap.empty "j"))) "j" = some [1] := rfl
  rw [h1, h2]
  decide

/-- C4 (replace-miss safety): for a key absent from the store, `Replace` hands back the
store, the unmarshaler's target state and the memory exactly as they were, and a
recording unmarshaler's call log gains no entry: `Unmarshal` was not invoked. -/
theorem replace_miss_safe {υ : Type} (c : msalCache) (u : Unmarshaler υ) (us : υ)
    (log : List Blob) (h : Heap) (key : String)
    (habsent : c.store key = none) :
    c.Replace u us h key = (c, us, h) ∧
      c.Replace u.recording (us, log) h key = (c, (us, log), h) := by
  simp [msalCache.Replace, habsent]

theorem replace_miss_safe_witness :
    (sampleStore.Replace rejectingUnmarshaler 5 sampleHeap "absent").2.1 = 5 ∧
      (sampleStore.Replace rejectingUnmarshaler.recording (5, []) sampleHeap "absent").2.1
        = (5, []) :=
  ⟨congrArg (fun r => r.2.1)
      (replace_miss_safe sampleStore rejectingUnmarshaler 5 [] sampleHeap "absent"
        (by decide)).1,
   congrArg (fun r => r.2.1)
      (replace_miss_safe sampleStore rejectingUnmarshaler 5 [] sampleHeap "absent"
        (by decide)).2⟩

/-- C9, amended (read failures are absorbed): for a key the store binds to the slice `v`,
`Replace` hands `v` to the unmarshaler exactly once (the target state and the memory are
those `Unmarshal v` leaves, the recording unmarshaler's log gains the single entry of the
bytes `v` reads), the map is handed back unchanged, and what `Unmarshal` reports, error
or not, appears nowhere in the result. What a key reads afterwards is what it read before
whenever `Unmarshal` has not itself changed the bytes of the slice stored under that
key. -/
theorem replace_absorbs_failure {υ : Type} (c : msalCache) (u : Unmarshaler υ) (us : υ)
    (log : List Blob) (h : Heap) (key : String) (v : Slice)
    (hpresent : c.store key = some v) :
    c.Replace u us h key = (c, (u.Unmarshal v us h).2) ∧
    c.Replace u.recording (us, log) h key =
      (c, ((u.Unmarshal v us h).2.1, log ++ [v.read h]), (u.Unmarshal v us h).2.2) ∧
    (∀ k, (∀ s, c.store k = some s → s.read (u.Unmarshal v us h).2.2 = s.read h) →
      viewAfter (c.Replace u us h key) k = c.view h k) := by
  refine ⟨by simp [msalCache.Replace, hpresent],
    by simp [msalCache.Replace, hpresent, Unmarshaler.recording], fun k hk => ?_⟩
  cases hs : c.store k with
  | none => simp [viewAfter, msalCache.Replace, msalCache.view, hpresent, hs]
  | some s => simp [viewAfter, msalCache.Replace, msalCache.view, hpresent, hs, hk s hs]

theorem replace_absorbs_failure_witness :
    sampleStore.Replace rejectingUnmarshaler.recording (5, []) sampleHeap "j" =
      (sampleStore, (7, [[7]]), sampleHeap) ∧
    viewAfter (sampleStore.Replace rejectingUnmarshaler 5 sampleHeap "j") "j" = some [7] ∧
    viewAfter (sampleStore.Replace rejectingUnmarshaler 5 sampleHeap "j") "k" = some [9] :=
  ⟨(replace_absorbs_failure sampleStore rejectingUnmarshaler 5 [] sampleHeap "j" ⟨1, 0, 1⟩
      rfl).2.1,
   ((replace_absorbs_failure sampleStore rejectingUnmarshaler 5 [] sampleHeap "j" ⟨1, 0, 1⟩
      rfl).2.2 "j" (fun s hs => by cases hs; rfl)).trans rfl,
   ((replace_absorbs_failure sampleStore rejectingUnmarshaler 5 [] sampleHeap "j" ⟨1, 0, 1⟩
      rfl).2.2 "k" (fun s hs => by cases hs; rfl)).trans rfl⟩

/-- C9 as stated fails: with `j` reading `[7]`, `Replace` under `j` with the unmarshaler
that decodes in place hands it the map's own slice; after the call `j` reads `[255]`. -/
theorem replace_absorbs_failure_counterexample :
    sampleStore.view sampleHeap "j" = some [7] ∧
    viewAfter (sampleStore.Replace scribblingUnmarshaler 0 sampleHeap "j") "j" = some [255] ∧
    viewAfter (sampleStore.Replace scribblingUnmarshaler 0 sampleHeap "j") "j" ≠
      sampleStore.view sampleHeap "j" := by
  refine ⟨rfl, rfl, ?_⟩
  have h1 : sampleStore.view sampleHeap "j" = some [7] := rfl
  have h2 : viewAfter (sampleStore.Replace scribblingUnmarshaler 0 sampleHeap "j") "j" =
      some [255] := rfl
  rw [h1, h2]
  decide

/-- C2 (cross-client cache sharing): after an `Export` under `key` whose `Marshal`
returns without error a slice reading `b`, a `Replace` under `key` on the resulting cache
invokes `Unmarshal` exactly once, on that slice, which reads `b` at the time of the call:
the target state is the one that call leaves and the recording unmarshaler's log gains
the single entry `b`. -/
theorem export_then_replace {μ υ : Type} (c : msalCache) (m : Marshaler μ) (ms ms1 : μ)
    (u : Unmarshaler υ) (us : υ) (log : List Blob) (h h1 : Heap) (key : String) (s : Slice)
    (b : Blob)
    (hok : m.Marshal ms h = ((s, none), ms1, h1)) (hb : s.read h1 = b) :
    ((c.Export m ms h key).1.Replace u us (c.Export m ms h key).2.2 key).2 =
      (u.Unmarshal s us h1).2 ∧
    ((c.Export m ms h key).1.Replace u.recording (us, log) (c.Export m ms h key).2.2 key).2 =
      (((u.Unmarshal s us h1).2.1, log ++ [b]), (u.Unmarshal s us h1).2.2) := by
  simp [msalCache.Export, msalCache.Replace, hok, Unmarshaler.recording, hb]

theorem export_then_replace_witness :
    ((sampleStore.Export reusingMarshaler 0 sampleHeap "k").1.Replace
        acceptingUnmarshaler.recording (5, [[3]])
        (sampleStore.Export reusingMarshaler 0 sampleHeap "k").2.2 "k").2.1
      = (7, [[3], [1, 2]]) :=
  congrArg Prod.fst
    (export_then_replace sampleStore reusingMarshaler 0 1 acceptingUnmarshaler 5 [[3]]
      sampleHeap (Heap.write sampleHeap 0 [1, 2]) "k" ⟨0, 0, 2⟩ [1, 2] rfl rfl).2

/-- C3 (credential pass-through): `GetToken` with scopes `S` calls the client's silent
acquisition exactly once, with `S` and the bound account (the recording client's log
gains that single entry). When the acquisition returns a result without error, `GetToken`
returns that result's token and expiry and no error; when it returns error `e`,
`GetToken` returns the zero `AccessToken` and `e` itself. The world is left as the
acquisition left it. -/
theorem getToken_pass_through {ω : Type} (cl : Client ω) (account : Account) (S : List String)
    (w : ω) (log : List (List String × Account)) :
    (∀ res w1, cl.AcquireTokenSilent S account w = ((res, none), w1) →
      msalPublicAppCredential.GetToken { client := cl, account := account } { Scopes := S } w =
        (({ Token := res.AccessToken, ExpiresOn := res.ExpiresOn }, none), w1) ∧
      msalPublicAppCredential.GetToken { client := cl.recording, account := account }
          { Scopes := S } (w, log) =
        (({ Token := res.AccessToken, ExpiresOn := res.ExpiresOn }, none),
          (w1, log ++ [(S, account)]))) ∧
    (∀ res e w1, cl.AcquireTokenSilent S account w = ((res, some e), w1) →
      msalPublicAppCredential.GetToken { client := cl, account := account } { Scopes := S } w =
        (({ Token := "", ExpiresOn := 0 }, some e), w1) ∧
      msalPublicAppCredential.GetToken { client := cl.recording, account := account }
          { Scopes := S } (w, log) =
        (({ Token := "", ExpiresOn := 0 }, some e), (w1, log ++ [(S, account)]))) := by
  constructor
  · intro res w1 h
    simp [msalPublicAppCredential.GetToken, Client.recording, h]
  · intro res e w1 h
    simp [msalPublicAppCredential.GetToken, Client.recording, h]

theorem getToken_pass_through_witness :
    msalPublicAppCredential.GetToken { client := sampleClient.recording, account := sampleAccount }
        { Scopes := [ManagementScope] } (0, []) =
      (({ Token := "T", ExpiresOn := 3600 }, none), (1, [([ManagementScope], sampleAccount)])) ∧
    msalPublicAppCredential.GetToken { client := sampleClient.recording, account := sampleAccount }
        { Scopes := ["https://graph.microsoft.com/.default"] } (0, []) =
      (({ Token := "", ExpiresOn := 0 }, some "no cached grant"),
        (1, [(["https://graph.microsoft.com/.default"], sampleAccount)])) :=
  ⟨((getToken_pass_through sampleClient sampleAccount [ManagementScope] 0 []).1
      ⟨"T", 3600⟩ 1 rfl).2,
   ((getToken_pass_through sampleClient sampleAccount ["https://graph.microsoft.com/.default"]
      0 []).2 ⟨"stale", 5⟩ "no cached grant" 1 rfl).2⟩

/-! ## Discovery loops: theorems -/

/-- On a page built by `tenantsPageOf` the item loop completes, appending the tenant IDs
and printing one line per item, in item order. -/
theorem tenantItems_tenantsPageOf {ω : Type} (items : List (String × String)) (st : Run ω) :
    tenantItems (tenantsPageOf items).Value st =
      .done { st with
        allTenants := st.allTenants ++ items.map Prod.snd
        trace := st.trace ++ items.map fun it =>
          .stdout ("*** discovered tenant: " ++ it.1 ++ " (" ++ it.2 ++ ")\n") } := by
  induction items generalizing st with
  | nil => simp [tenantsPageOf, tenantItems]
  | cons it rest ih =>
    have h := ih { st with
      allTenants := st.allTenants ++ [it.2]
      trace := st.trace ++
        [.stdout ("*** discovered tenant: " ++ it.1 ++ " (" ++ it.2 ++ ")\n")] }
    simp only [tenantsPageOf, List.map_cons, tenantItems] at h ⊢
    rw [h]
    simp

theorem stubTenantsPager_More (w : List TenantsClientListResponse) :
    stubTenantsPager.More w = !w.isEmpty := rfl

theorem stubTenantsPager_NextPage_cons (page : TenantsClientListResponse)
    (rest : List TenantsClientListResponse) :
    stubTenantsPager.NextPage (page :: rest) = ((page, none), rest) := rfl

/-- The tenant pager loop on the stub page source, with more fuel than pages. -/
theorem tenantPages_stub (pages : List (List (String × String))) (fuel : Nat)
    (all : List String) (tr : List Event) (hfuel : pages.length < fuel) :
    tenantPages stubTenantsPager fuel
        { world := pages.map tenantsPageOf, allTenants := all, trace := tr } =
      .done { world := []
              allTenants := all ++ pages.flatMap fun items => items.map Prod.snd
              trace := tr ++ pages.flatMap tenantPageEvents ++ [.more false] } := by
  induction pages generalizing fuel all tr with
  | nil =>
    cases fuel with
    | zero => omega
    | succ n => simp [tenantPages, stubTenantsPager_More]
  | cons items rest ih =>
    cases fuel with
    | zero => omega
    | succ n =>
      have hn : rest.length < n := by simpa using hfuel
      simp only [tenantPages, stubTenantsPager_More, stubTenantsPager_NextPage_cons,
        List.map_cons, List.isEmpty_cons, Bool.not_false, if_true, tenantItems_tenantsPageOf]
      rw [ih n _ _ hn]
      simp [tenantPageEvents, List.flatMap_cons]

theorem nextPageCalls_tenantPageEvents (items : List (String × String)) :
    nextPageCalls (tenantPageEvents items) = 1 := by
  have h : List.countP Event.isNextPage
      (items.map fun it =>
        Event.stdout ("*** discovered tenant: " ++ it.1 ++ " (" ++ it.2 ++ ")\n")) = 0 := by
    rw [List.countP_eq_zero]
    intro a ha
    rcases List.mem_map.1 ha with ⟨it, _, rfl⟩
    simp [Event.isNextPage]
  simp [nextPageCalls, tenantPageEvents, List.countP_cons, Event.isNextPage, h]

theorem nextPageCalls_flatMap_tenantPageEvents (pages : List (List (String × String))) :
    nextPageCalls (pages.flatMap tenantPageEvents) = pages.length := by
  induction pages with
  | nil => simp [nextPageCalls]
  | cons items rest ih =>
    have h1 := nextPageCalls_tenantPageEvents items
    simp only [nextPageCalls] at ih h1 ⊢
    simp [List.flatMap_cons, List.countP_append, ih, h1]
    omega

theorem items_of_pages_length (pages : List (List (String × String))) :
    (pages.flatMap fun items => items.map Prod.snd).length = (pages.map List.length).sum := by
  induction pages with
  | nil => simp
  | cons items rest ih => simp [List.flatMap_cons, ih]

/-- C6 (discovery termination): on the stub page source that serves the `N` pages `pages`
(`M` items in all, each with a display name and a tenant ID) and whose `More()` is true
exactly while pages remain, the tenant pager loop, given more fuel than pages, ends
normally with every page served; `allTenants` has gained the tenant IDs of the pages, in
page order and item order, `M` of them; the loop made exactly `N` calls of `NextPage`;
`More()` answered `false` once, as the loop's last event, so no `NextPage` follows it.
Lines 55-70 as a whole then leave exactly these IDs in `allTenants` and print the count. -/
theorem discovery_terminates (pages : List (List (String × String))) (fuel : Nat)
    (all : List String) (tr : List Event) (hfuel : pages.length < fuel) :
    tenantPages stubTenantsPager fuel
        { world := pages.map tenantsPageOf, allTenants := all, trace := tr } =
      .done { world := []
              allTenants := all ++ pages.flatMap fun items => items.map Prod.snd
              trace := tr ++ pages.flatMap tenantPageEvents ++ [.more false] } ∧
    nextPageCalls (pages.flatMap tenantPageEvents ++ [.more false]) = pages.length ∧
    Event.more false ∉ pages.flatMap tenantPageEvents ∧
    (pages.flatMap fun items => items.map Prod.snd).length = (pages.map List.length).sum ∧
    discoverTenants stubTenantsClient fuel
        { world := pages.map tenantsPageOf, allTenants := all, trace := tr } =
      .done { world := []
              allTenants := pages.flatMap fun items => items.map Prod.snd
              trace := tr ++ [.newListPager] ++ pages.flatMap tenantPageEvents ++
                [.more false,
                 .stdout ("*** discovered " ++ toString (pages.map List.length).sum ++
                   " tenants\n")] } := by
  refine ⟨tenantPages_stub pages fuel all tr hfuel, ?_, ?_, items_of_pages_length pages, ?_⟩
  · have h := nextPageCalls_flatMap_tenantPageEvents pages
    simp only [nextPageCalls] at h ⊢
    simp [List.countP_append, h, Event.isNextPage]
  · simp [List.mem_flatMap, tenantPageEvents]
  · have h := tenantPages_stub pages fuel [] (tr ++ [.newListPager]) hfuel
    simp only [discoverTenants, stubTenantsClient, h, List.nil_append,
      items_of_pages_length]
    simp

theorem discovery_terminates_witness :
    tenantPages stubTenantsPager 3
        { world := [tenantsPageOf [("Contoso", "t1"), ("Fabrikam", "t2")],
                    tenantsPageOf [("Northwind", "t3")]]
          allTenants := []
          trace := [] } =
      .done { world := []
              allTenants := ["t1", "t2", "t3"]
              trace :=
                [.more true,
                 .tenantsPage (tenantsPageOf [("Contoso", "t1"), ("Fabrikam", "t2")]) none,
                 .stdout "*** discovered tenant: Contoso (t1)\n",
                 .stdout "*** discovered tenant: Fabrikam (t2)\n",
                 .more true,
                 .tenantsPage (tenantsPageOf [("Northwind", "t3")]) none,
                 .stdout "*** discovered tenant: Northwind (t3)\n",
                 .more false] } :=
  (discovery_terminates [[("Contoso", "t1"), ("Fabrikam", "t2")], [("Northwind", "t3")]] 3
    [] [] (by decide)).1

/-- A completed item loop leaves the world alone, appends the tenant ID of every item, and
only writes to standard output. -/
theorem subscriptionItems_done {ω : Type} (items : List (Option Subscription)) (st st1 : Run ω)
    (h : subscriptionItems items st = .done st1) :
    st1.world = st.world ∧
    st1.allTenants = st.allTenants ++ items.filterMap (fun s => s.bind Subscription.TenantID) ∧
    ∃ out, st1.trace = st.trace ++ out ∧ publicNewCalls out = [] ∧
      discoveredSubscriptionTenants out = [] := by
  induction items generalizing st with
  | nil =>
    simp only [subscriptionItems, Outcome.done.injEq] at h
    subst h
    exact ⟨rfl, by simp, [], by simp, rfl, rfl⟩
  | cons item rest ih =>
    rcases item with _ | ⟨_ | displayName, _ | id, _ | t⟩ <;>
      simp only [subscriptionItems] at h <;> try (exact absurd h (by simp))
    obtain ⟨hw, hall, out, htr, hcalls, hsubs⟩ := ih _ h
    refine ⟨hw, ?_,
      Event.stdout ("*** discovered subscription: " ++ displayName ++ " (" ++ id ++ ")\n") :: out,
      ?_, ?_, ?_⟩
    · simp [hall]
    · simp [htr]
    · simpa [publicNewCalls, Event.publicNewArgs] using hcalls
    · simpa [discoveredSubscriptionTenants, Event.fetchedSubscriptionTenants] using hsubs

/-- A completed subscription pager loop makes no `public.New` call and appends to
`allTenants` the tenant IDs of the subscriptions it fetched, in order. -/
theorem subscriptionPages_done {ω : Type} (subPager : Pager ω ClientListResponse) (fuel : Nat)
    (st st1 : Run ω) (h : subscriptionPages subPager fuel st = .done st1) :
    ∃ after, st1.trace = st.trace ++ after ∧ publicNewCalls after = [] ∧
      st1.allTenants = st.allTenants ++ discoveredSubscriptionTenants after := by
  induction fuel generalizing st with
  | zero => simp [subscriptionPages] at h
  | succ n ih =>
    by_cases hmore : subPager.More st.world = true
    · rcases hnp : subPager.NextPage st.world with ⟨⟨res, err⟩, w⟩
      cases err with
      | some e => simp [subscriptionPages, hmore, hnp] at h
      | none =>
        simp only [subscriptionPages, hmore, hnp, if_true] at h
        cases hitems : subscriptionItems res.Value
            { st with world := w
                      trace := st.trace ++ [.more true, .subscriptionsPage res none] } with
        | done st2 =>
          rw [hitems] at h
          obtain ⟨_, hall, out, htr, hcalls, hsubs⟩ := subscriptionItems_done _ _ _ hitems
          obtain ⟨after, htr1, hcalls1, hall1⟩ := ih st2 h
          refine ⟨[.more true, .subscriptionsPage res none] ++ out ++ after, ?_, ?_, ?_⟩
          · simp [htr1, htr]
          · simp only [publicNewCalls, List.filterMap_append] at hcalls hcalls1 ⊢
            simp [hcalls, hcalls1, Event.publicNewArgs]
          · simp only [discoveredSubscriptionTenants, List.flatMap_append] at hsubs hall1 ⊢
            simp [hall1, hall, hsubs, Event.fetchedSubscriptionTenants, subscriptionTenants]
        | fatal e st2 => rw [hitems] at h; simp at h
        | panicked m st2 => rw [hitems] at h; simp at h
        | outOfFuel st2 => rw [hitems] at h; simp at h
    · simp only [subscriptionPages, hmore, Bool.false_eq_true, if_false,
        Outcome.done.injEq] at h
      subst h
      exact ⟨[.more false], rfl, rfl, by simp [discoveredSubscriptionTenants,
        Event.fetchedSubscriptionTenants]⟩

/-- A completed round of the per-tenant loop calls `public.New` once, with the client ID
and the authority of the round's tenant, and appends to `allTenants` the tenant IDs of the
subscriptions it fetched. -/
theorem tenantBody_done {ω : Type} (env : Env ω) (account : Account) (fuel : Nat)
    (tenantId : String) (st st1 : Run ω)
    (h : tenantBody env account fuel tenantId st = .done st1) :
    ∃ after, st1.trace = st.trace ++ after ∧
      publicNewCalls after = [(AzCLIClientID, authorityOf tenantId)] ∧
      st1.allTenants = st.allTenants ++ discoveredSubscriptionTenants after := by
  rcases happ : env.publicNew AzCLIClientID (authorityOf tenantId) st.world with ⟨⟨app, err⟩, w⟩
  cases err with
  | some e => simp [tenantBody, happ] at h
  | none =>
    rcases hcli : env.NewClient { client := app, account := account } w with ⟨⟨sc, err1⟩, w1⟩
    cases err1 with
    | some e => simp [tenantBody, happ, hcli] at h
    | none =>
      simp only [tenantBody, happ, hcli] at h
      obtain ⟨after, htr, hcalls, hall⟩ := subscriptionPages_done _ _ _ _ h
      refine ⟨[.stdout ("*** listing subscriptions for tenant: " ++ tenantId ++ "\n"),
        .publicNew AzCLIClientID (authorityOf tenantId), .newClient account, .newListPager]
        ++ after, ?_, ?_, ?_⟩
      · simp [htr]
      · simp only [publicNewCalls, List.filterMap_append] at hcalls ⊢
        simp [hcalls, Event.publicNewArgs]
      · simp only [discoveredSubscriptionTenants, List.flatMap_append] at hall ⊢
        simp [hall, Event.fetchedSubscriptionTenants]

/-- Completed rounds over `tenants` call `public.New` once per element, in order. -/
theorem tenantRange_done {ω : Type} (env : Env ω) (account : Account) (fuel : Nat)
    (tenants : List String) (st st1 : Run ω)
    (h : tenantRange env account fuel tenants st = .done st1) :
    ∃ after, st1.trace = st.trace ++ after ∧
      publicNewCalls after = tenants.map (fun t => (AzCLIClientID, authorityOf t)) ∧
      st1.allTenants = st.allTenants ++ discoveredSubscriptionTenants after := by
  induction tenants generalizing st with
  | nil =>
    simp only [tenantRange, Outcome.done.injEq] at h
    subst h
    exact ⟨[], by simp, rfl, by simp [discoveredSubscriptionTenants]⟩
  | cons t rest ih =>
    simp only [tenantRange] at h
    cases hbody : tenantBody env account fuel t st with
    | done st2 =>
      rw [hbody] at h
      obtain ⟨a1, htr1, hcalls1, hall1⟩ := tenantBody_done _ _ _ _ _ _ hbody
      obtain ⟨a2, htr2, hcalls2, hall2⟩ := ih st2 h
      refine ⟨a1 ++ a2, ?_, ?_, ?_⟩
      · simp [htr2, htr1]
      · simp only [publicNewCalls, List.filterMap_append] at hcalls1 hcalls2 ⊢
        simp [hcalls1, hcalls2]
      · simp only [discoveredSubscriptionTenants, List.flatMap_append] at hall1 hall2 ⊢
        simp [hall2, hall1]
    | fatal e st2 => rw [hbody] at h; simp at h
    | panicked m st2 => rw [hbody] at h; simp at h
    | outOfFuel st2 => rw [hbody] at h; simp at h

/-- The rounds over `xs ++ ys` are the rounds over `xs`, then, if they complete, the
rounds over `ys`. -/
theorem tenantRange_append {ω : Type} (env : Env ω) (account : Account) (fuel : Nat)
    (xs ys : List String) (st : Run ω) :
    tenantRange env account fuel (xs ++ ys) st =
      match tenantRange env account fuel xs st with
      | .done st1 => tenantRange env account fuel ys st1
      | out => out := by
  induction xs generalizing st with
  | nil => simp [tenantRange]
  | cons t rest ih =>
    simp only [List.cons_append, tenantRange]
    cases hbody : tenantBody env account fuel t st with
    | done st2 => simp [ih]
    | fatal e st2 => simp
    | panicked m st2 => simp
    | outOfFuel st2 => simp

/-! ### The stub environment -/

/-- On a page built by `subscriptionsPageOf` the item loop completes, appending the tenant
IDs and printing one line per item, in item order. -/
theorem subscriptionItems_subscriptionsPageOf {ω : Type}
    (items : List (String × String × String)) (st : Run ω) :
    subscriptionItems (subscriptionsPageOf items).Value st =
      .done { st with
        allTenants := st.allTenants ++ items.map fun it => it.2.2
        trace := st.trace ++ items.map fun it =>
          .stdout ("*** discovered subscription: " ++ it.1 ++ " (" ++ it.2.1 ++ ")\n") } := by
  induction items generalizing st with
  | nil => simp [subscriptionsPageOf, subscriptionItems]
  | cons it rest ih =>
    have h := ih { st with
      allTenants := st.allTenants ++ [it.2.2]
      trace := st.trace ++
        [.stdout ("*** discovered subscription: " ++ it.1 ++ " (" ++ it.2.1 ++ ")\n")] }
    simp only [subscriptionsPageOf, List.map_cons, subscriptionItems] at h ⊢
    rw [h]
    simp

theorem stubSubscriptionsPager_More (cred : msalPublicAppCredential StubWorld) (w : StubWorld) :
    (stubSubscriptionsPager cred).More w = !w.pending.isEmpty := rfl

/-- With a realm whose silent acquisition succeeds, the stub pager serves the next page
and logs the one acquisition, made for the management scope and the bound account. -/
theorem stubSubscriptionsPager_NextPage_ok (r : RealmStub) (account : Account)
    (res : AuthResult) (hsilent : r.silent = (res, none)) (w : StubWorld)
    (page : ClientListResponse) (rest : List ClientListResponse)
    (hpending : w.pending = page :: rest) :
    (stubSubscriptionsPager { client := stubClient r, account := account }).NextPage w =
      ((page, none),
        { upcoming := w.upcoming
          pending := rest
          silentCalls := w.silentCalls ++ [([ManagementScope], account)] }) := by
  simp [stubSubscriptionsPager, msalPublicAppCredential.GetToken, stubClient, hsilent, hpending]

/-- With a realm whose silent acquisition fails with `e`, the stub pager's fetch fails
with `e`, whatever pages are pending. -/
theorem stubSubscriptionsPager_NextPage_fail (r : RealmStub) (account : Account)
    (res : AuthResult) (e : Error) (hsilent : r.silent = (res, some e)) (w : StubWorld) :
    (stubSubscriptionsPager { client := stubClient r, account := account }).NextPage w =
      (({ Value := [] }, some e),
        { w with silentCalls := w.silentCalls ++ [([ManagementScope], account)] }) := by
  simp [stubSubscriptionsPager, msalPublicAppCredential.GetToken, stubClient, hsilent]

/-- The subscription pager loop on the stub pager of a realm whose silent acquisition
succeeds, with more fuel than pending pages. -/
theorem subscriptionPages_stub_ok (r : RealmStub) (account : Account) (res : AuthResult)
    (hsilent : r.silent = (res, none)) (pages : List (List (String × String × String)))
    (fuel : Nat) (hfuel : pages.length < fuel) (w : StubWorld)
    (hpending : w.pending = pages.map subscriptionsPageOf) (all : List String)
    (tr : List Event) :
    ∃ st1, subscriptionPages (stubSubscriptionsPager { client := stubClient r, account := account })
        fuel { world := w, allTenants := all, trace := tr } = .done st1 ∧
      st1.world.upcoming = w.upcoming ∧
      st1.allTenants = all ++ pages.flatMap fun items => items.map fun it => it.2.2 := by
  induction pages generalizing fuel w all tr with
  | nil =>
    cases fuel with
    | zero => omega
    | succ n =>
      refine ⟨{ world := w, allTenants := all, trace := tr ++ [.more false] }, ?_, rfl, by simp⟩
      simp [subscriptionPages, stubSubscriptionsPager_More, hpending]
  | cons items rest ih =>
    cases fuel with
    | zero => omega
    | succ n =>
      have hn : rest.length < n := by simpa using hfuel
      have hpend : w.pending = subscriptionsPageOf items :: rest.map subscriptionsPageOf := by
        simpa using hpending
      obtain ⟨st1, hrun, hup, hall⟩ := ih n hn
        { upcoming := w.upcoming
          pending := rest.map subscriptionsPageOf
          silentCalls := w.silentCalls ++ [([ManagementScope], account)] } rfl
        (all ++ items.map fun it => it.2.2)
        (tr ++ [.more true, .subscriptionsPage (subscriptionsPageOf items) none] ++
          items.map fun it =>
            .stdout ("*** discovered subscription: " ++ it.1 ++ " (" ++ it.2.1 ++ ")\n"))
      refine ⟨st1, ?_, hup, ?_⟩
      · simp only [subscriptionPages, stubSubscriptionsPager_More, hpend, List.isEmpty_cons,
          Bool.not_false, if_true,
          stubSubscriptionsPager_NextPage_ok r account res hsilent w _ _ hpend,
          subscriptionItems_subscriptionsPageOf]
        exact hrun
      · simp [hall, List.flatMap_cons]

theorem stubEnv_publicNew_cons (clientID authority : String) (w : StubWorld) (r : RealmStub)
    (rest : List RealmStub) (hup : w.upcoming = r :: rest) :
    stubEnv.publicNew clientID authority w =
      ((stubClient r, none),
        { w with upcoming := rest, pending := r.pages.map subscriptionsPageOf }) := by
  simp [stubEnv, hup]

theorem stubEnv_NewClient (cred : msalPublicAppCredential StubWorld) (w : StubWorld) :
    stubEnv.NewClient cred w =
      (({ NewListPager := fun w1 => (stubSubscriptionsPager cred, w1) }, none), w) := rfl

/-- One round of the per-tenant loop on the stub environment, for a realm whose silent
acquisition succeeds: the round completes and appends the realm's subscription tenants. -/
theorem tenantBody_stub_ok (account : Account) (fuel : Nat) (tenantId : String)
    (r : RealmStub) (rest : List RealmStub) (hsilent : r.silent.2 = none)
    (hfuel : r.pages.length < fuel) (st : Run StubWorld) (hup : st.world.upcoming = r :: rest) :
    ∃ st1, tenantBody stubEnv account fuel tenantId st = .done st1 ∧
      st1.world.upcoming = rest ∧
      st1.allTenants =
        st.allTenants ++ r.pages.flatMap fun items => items.map fun it => it.2.2 := by
  have hs : r.silent = (r.silent.1, none) := by rw [← hsilent]
  obtain ⟨st1, hrun, hup1, hall1⟩ := subscriptionPages_stub_ok r account r.silent.1 hs r.pages
    fuel hfuel
    { st.world with upcoming := rest, pending := r.pages.map subscriptionsPageOf } rfl
    st.allTenants
    (st.trace ++
      [.stdout ("*** listing subscriptions for tenant: " ++ tenantId ++ "\n"),
       .publicNew AzCLIClientID (authorityOf tenantId)] ++ [.newClient account, .newListPager])
  refine ⟨st1, ?_, hup1, hall1⟩
  simp only [tenantBody, stubEnv_publicNew_cons _ _ _ r rest hup, stubEnv_NewClient]
  exact hrun

/-- One round of the per-tenant loop on the stub environment, for a realm whose silent
acquisition fails with `e` and that has a page to fetch: the first fetch surfaces `e`
and `log.Fatal` ends the run. -/
theorem tenantBody_stub_fail (account : Account) (fuel : Nat) (tenantId : String)
    (r : RealmStub) (rest : List RealmStub) (e : Error) (hsilent : r.silent.2 = some e)
    (hpages : r.pages ≠ []) (hfuel : 0 < fuel) (st : Run StubWorld)
    (hup : st.world.upcoming = r :: rest) :
    tenantBody stubEnv account fuel tenantId st =
      .fatal e
        { world :=
            { upcoming := rest
              pending := r.pages.map subscriptionsPageOf
              silentCalls := st.world.silentCalls ++ [([ManagementScope], account)] }
          allTenants := st.allTenants
          trace := st.trace ++
            [.stdout ("*** listing subscriptions for tenant: " ++ tenantId ++ "\n"),
             .publicNew AzCLIClientID (authorityOf tenantId),
             .newClient account, .newListPager, .more true,
             .subscriptionsPage { Value := [] } (some e)] } := by
  have hs : r.silent = (r.silent.1, some e) := by rw [← hsilent]
  obtain ⟨n, rfl⟩ : ∃ n, fuel = n + 1 := ⟨fuel - 1, by omega⟩
  have hne : (r.pages.map subscriptionsPageOf).isEmpty = false := by
    cases hp : r.pages with
    | nil => exact absurd hp hpages
    | cons a b => simp
  simp only [tenantBody, stubEnv_publicNew_cons _ _ _ r rest hup, stubEnv_NewClient,
    subscriptionPages, stubSubscriptionsPager_More, hne, Bool.not_false, if_true,
    stubSubscriptionsPager_NextPage_fail r account r.silent.1 e hs]
  simp

/-- The rounds over realms whose silent acquisition succeeds all complete on the stub
environment, consuming exactly those realms' scripts. -/
theorem tenantRange_stub_ok (account : Account) (fuel : Nat) (pre : List (String × RealmStub))
    (rest : List RealmStub)
    (hbefore : ∀ p ∈ pre, p.2.silent.2 = none ∧ p.2.pages.length < fuel)
    (st : Run StubWorld) (hup : st.world.upcoming = pre.map Prod.snd ++ rest) :
    ∃ st1, tenantRange stubEnv account fuel (pre.map Prod.fst) st = .done st1 ∧
      st1.world.upcoming = rest ∧
      st1.allTenants = st.allTenants ++
        pre.flatMap fun p => p.2.pages.flatMap fun items => items.map fun it => it.2.2 := by
  induction pre generalizing st with
  | nil => exact ⟨st, rfl, by simpa using hup, by simp⟩
  | cons p ps ih =>
    have hp := hbefore p (List.mem_cons_self _ _)
    obtain ⟨st1, hbody, hup1, hall1⟩ := tenantBody_stub_ok account fuel p.1 p.2
      (ps.map Prod.snd ++ rest) hp.1 hp.2 st (by simpa using hup)
    obtain ⟨st2, hrange, hup2, hall2⟩ := ih
      (fun q hq => hbefore q (List.mem_cons_of_mem _ hq)) st1 hup1
    refine ⟨st2, ?_, hup2, ?_⟩
    · simp only [List.map_cons, tenantRange, hbody]
      exact hrange
    · simp [hall2, hall1, List.flatMap_cons]

/-! ### Runs in which no step fails complete -/

/-- The item loop completes on a page whose items can all be read. -/
theorem subscriptionItems_complete {ω : Type} (items : List (Option Subscription))
    (hitems : ∀ s ∈ items, Subscription.complete s = true) (st : Run ω) :
    ∃ st1, subscriptionItems items st = .done st1 := by
  induction items generalizing st with
  | nil => exact ⟨st, rfl⟩
  | cons item rest ih =>
    have hhead := hitems item (List.mem_cons_self _ _)
    have hrest : ∀ s ∈ rest, Subscription.complete s = true :=
      fun s hs => hitems s (List.mem_cons_of_mem _ hs)
    rcases item with _ | ⟨_ | displayName, _ | id, _ | t⟩ <;>
      simp only [Subscription.complete, Bool.false_eq_true] at hhead
    simp only [subscriptionItems]
    exact ih hrest _

/-- A pager that serves `pages` without a failing step lets the pager loop complete,
given more fuel than pages; the loop leaves the world the pager is in after its last
page and has appended the tenant IDs of the pages' subscriptions. -/
theorem subscriptionPages_serves {ω : Type} (subPager : Pager ω ClientListResponse)
    (pages : List ClientListResponse) (fuel : Nat) (st : Run ω)
    (hserves : PagerServes subPager pages st.world) (hfuel : pages.length < fuel) :
    ∃ st1, subscriptionPages subPager fuel st = .done st1 ∧
      st1.world = subPager.after pages.length st.world ∧
      st1.allTenants = st.allTenants ++ pages.flatMap subscriptionTenants := by
  induction pages generalizing fuel st with
  | nil =>
    cases fuel with
    | zero => omega
    | succ n =>
      simp only [PagerServes] at hserves
      exact ⟨{ st with trace := st.trace ++ [.more false] },
        by simp [subscriptionPages, hserves], rfl, by simp⟩
  | cons res rest ih =>
    cases fuel with
    | zero => omega
    | succ n =>
      have hn : rest.length < n := by simpa using hfuel
      obtain ⟨hmore, hnext, hitems, hrest⟩ := hserves
      rcases hnp : subPager.NextPage st.world with ⟨⟨res1, err⟩, w⟩
      rw [hnp] at hnext hrest
      simp only [Prod.mk.injEq] at hnext
      obtain ⟨rfl, rfl⟩ := hnext
      obtain ⟨st2, hst2⟩ := subscriptionItems_complete res1.Value hitems
        { st with world := w
                  trace := st.trace ++ [.more true, .subscriptionsPage res1 none] }
      obtain ⟨hw2, hall2, _⟩ := subscriptionItems_done _ _ _ hst2
      have hrest2 : PagerServes subPager rest st2.world := by rw [hw2]; exact hrest
      obtain ⟨st1, hrun, hw1, hall1⟩ := ih n st2 hrest2 hn
      refine ⟨st1, ?_, ?_, ?_⟩
      · simp only [subscriptionPages, hmore, hnp, if_true, hst2]
        exact hrun
      · simp only [List.length_cons, Pager.after, hnp]
        rw [hw1, hw2]
      · simp [hall1, hall2, List.flatMap_cons, subscriptionTenants]

/-- Rounds in which no step fails all complete, given more fuel than any round has
pages, and append the tenant IDs of the subscriptions served, round by round. -/
theorem tenantRange_succeeds {ω : Type} (env : Env ω) (account : Account) (fuel : Nat)
    (tenants : List String) (pages : List (List ClientListResponse)) (st : Run ω)
    (hrounds : RoundsSucceed env account tenants pages st.world)
    (hfuel : ∀ served ∈ pages, served.length < fuel) :
    ∃ st1, tenantRange env account fuel tenants st = .done st1 ∧
      st1.allTenants =
        st.allTenants ++ pages.flatMap fun served => served.flatMap subscriptionTenants := by
  induction tenants generalizing pages st with
  | nil =>
    cases pages with
    | nil => exact ⟨st, rfl, by simp⟩
    | cons served more => simp [RoundsSucceed] at hrounds
  | cons t rest ih =>
    cases pages with
    | nil => simp [RoundsSucceed] at hrounds
    | cons served more =>
      obtain ⟨hnew, hcli, hserves, hmore⟩ := hrounds
      rcases happ : env.publicNew AzCLIClientID ("https://login.microsoftonline.com/" ++ t)
        st.world with ⟨⟨app, err⟩, w⟩
      rcases hclient : env.NewClient { client := app, account := account } w with
        ⟨⟨sc, err1⟩, w1⟩
      simp only [roundSetup, happ, hclient] at hnew hcli hserves hmore
      subst hnew
      subst hcli
      obtain ⟨st2, hrun, hw2, hall2⟩ := subscriptionPages_serves (sc.NewListPager w1).1 served
        fuel
        { st with world := (sc.NewListPager w1).2
                  trace := st.trace ++
                    [.stdout ("*** listing subscriptions for tenant: " ++ t ++ "\n"),
                     .publicNew AzCLIClientID (authorityOf t)] ++
                    [.newClient account, .newListPager] }
        hserves (hfuel served (List.mem_cons_self _ _))
      have hmore2 : RoundsSucceed env account rest more st2.world := by rw [hw2]; exact hmore
      obtain ⟨st1, hrange, hall1⟩ := ih more st2 hmore2
        (fun q hq => hfuel q (List.mem_cons_of_mem _ hq))
      refine ⟨st1, ?_, ?_⟩
      · have hbody : tenantBody env account fuel t st = .done st2 := by
          simp only [tenantBody, authorityOf, happ, hclient]
          exact hrun
        simp only [tenantRange, hbody]
        exact hrange
      · simp [hall1, hall2, List.flatMap_cons]

/-! ### The per-tenant loop: claims -/

/-- C10 (the per-tenant loop walks the discovered realms): take any environment and any
run of the per-tenant loop in which no step fails (`RoundsSucceed`: in the round of each
realm ID that `allTenants` holds on entry, `public.New` and `NewClient` return a nil
error and the pager serves readable pages until `More()` is false), with more fuel than
any round has pages. The loop completes; the events it adds contain exactly one
`public.New` call for each realm ID that `allTenants` held on entry, in that order, each
with the client ID and the authority `https://login.microsoftonline.com/` followed by the
realm ID, and none for the tenant IDs the nested loop appends meanwhile; on exit
`allTenants` is its value on entry followed by the tenant IDs of the subscriptions
fetched, in fetch order, which are those of the pages served, round by round. -/
theorem per_tenant_loop_walks_discovered {ω : Type} (env : Env ω) (account : Account)
    (fuel : Nat) (st : Run ω) (pages : List (List ClientListResponse))
    (hrounds : RoundsSucceed env account st.allTenants pages st.world)
    (hfuel : ∀ served ∈ pages, served.length < fuel) :
    ∃ st1 after, subscriptionLoop env account fuel st = .done st1 ∧
      st1.trace = st.trace ++ after ∧
      publicNewCalls after =
        st.allTenants.map (fun t => (AzCLIClientID, "https://login.microsoftonline.com/" ++ t)) ∧
      (publicNewCalls after).length = st.allTenants.length ∧
      st1.allTenants = st.allTenants ++ discoveredSubscriptionTenants after ∧
      discoveredSubscriptionTenants after =
        pages.flatMap fun served => served.flatMap subscriptionTenants := by
  obtain ⟨st1, hdone, hall1⟩ := tenantRange_succeeds env account fuel st.allTenants pages st
    hrounds hfuel
  obtain ⟨after, htr, hcalls, hall⟩ := tenantRange_done env account fuel st.allTenants st st1 hdone
  refine ⟨st1, after, hdone, htr, ?_, ?_, hall, ?_⟩
  · simpa [authorityOf] using hcalls
  · simp [hcalls]
  · exact List.append_cancel_left (hall.symm.trans hall1)

theorem per_tenant_loop_walks_discovered_witness :
    subscriptionLoop stubEnv sampleAccount 3 sampleStart2 = .done sampleDone2 ∧
    ∃ st1 after, subscriptionLoop stubEnv sampleAccount 3 sampleStart2 = .done st1 ∧
      st1.trace = sampleStart2.trace ++ after ∧
      publicNewCalls after =
        sampleStart2.allTenants.map
          (fun t => (AzCLIClientID, "https://login.microsoftonline.com/" ++ t)) ∧
      (publicNewCalls after).length = sampleStart2.allTenants.length ∧
      st1.allTenants = sampleStart2.allTenants ++ discoveredSubscriptionTenants after ∧
      discoveredSubscriptionTenants after =
        [[subscriptionsPageOf [("Sub A", "/subscriptions/a", "t1")]],
         [subscriptionsPageOf [("Sub B", "/subscriptions/b", "t2")],
          subscriptionsPageOf [("Sub C", "/subscriptions/c", "t9")]]].flatMap
          fun served => served.flatMap subscriptionTenants :=
  ⟨rfl,
   per_tenant_loop_walks_discovered stubEnv sampleAccount 3 sampleStart2
     [[subscriptionsPageOf [("Sub A", "/subscriptions/a", "t1")]],
      [subscriptionsPageOf [("Sub B", "/subscriptions/b", "t2")],
       subscriptionsPageOf [("Sub C", "/subscriptions/c", "t9")]]]
     ⟨rfl, rfl, ⟨rfl, rfl, by decide, rfl⟩,
      rfl, rfl, ⟨rfl, rfl, by decide, rfl, rfl, by decide, rfl⟩, trivial⟩
     (by decide)⟩

/-- C5 (fatal abort): run the per-tenant loop on the stub environment over the realms
`pre ++ r :: post`, where the silent acquisition succeeds for every realm of `pre` and
fails with `e` for `r`, which has a page to fetch. Then the rounds for `pre` complete
(state `st1`, holding the subscription tenants of every realm of `pre`), and the run is
ended by `log.Fatal(e)` in the round of `r`, at its first page fetch, in a state that
has nothing of `post`: the `public.New` calls are those for `pre` and `r`, one each in
order, and the scripts of `post` are still waiting. -/
theorem fatal_abort (account : Account) (fuel : Nat) (pre post : List (String × RealmStub))
    (r : String × RealmStub) (e : Error) (st : Run StubWorld)
    (hall : st.allTenants = (pre ++ r :: post).map Prod.fst)
    (hscript : st.world.upcoming = (pre ++ r :: post).map Prod.snd)
    (hbefore : ∀ p ∈ pre, p.2.silent.2 = none ∧ p.2.pages.length < fuel)
    (hfail : r.2.silent.2 = some e) (hpages : r.2.pages ≠ []) (hfuel : 0 < fuel) :
    ∃ st1 st2,
      tenantRange stubEnv account fuel (pre.map Prod.fst) st = .done st1 ∧
      st1.allTenants = st.allTenants ++
        pre.flatMap (fun p => p.2.pages.flatMap fun items => items.map fun it => it.2.2) ∧
      subscriptionLoop stubEnv account fuel st = .fatal e st2 ∧
      st2.allTenants = st1.allTenants ∧
      st2.trace = st1.trace ++
        [.stdout ("*** listing subscriptions for tenant: " ++ r.1 ++ "\n"),
         .publicNew AzCLIClientID (authorityOf r.1),
         .newClient account, .newListPager, .more true,
         .subscriptionsPage { Value := [] } (some e)] ∧
      publicNewCalls st2.trace = publicNewCalls st.trace ++
        (pre ++ [r]).map (fun p => (AzCLIClientID, authorityOf p.1)) ∧
      st2.world.upcoming = post.map Prod.snd := by
  obtain ⟨st1, hpre, hup1, hall1⟩ := tenantRange_stub_ok account fuel pre
    (r.2 :: post.map Prod.snd) hbefore st (by simpa using hscript)
  have hbody := tenantBody_stub_fail account fuel r.1 r.2 (post.map Prod.snd) e hfail hpages
    hfuel st1 hup1
  obtain ⟨after, htr, hcalls, _⟩ := tenantRange_done stubEnv account fuel _ st st1 hpre
  refine ⟨st1,
    { world :=
        { upcoming := post.map Prod.snd
          pending := r.2.pages.map subscriptionsPageOf
          silentCalls := st1.world.silentCalls ++ [([ManagementScope], account)] }
      allTenants := st1.allTenants
      trace := st1.trace ++
        [.stdout ("*** listing subscriptions for tenant: " ++ r.1 ++ "\n"),
         .publicNew AzCLIClientID (authorityOf r.1),
         .newClient account, .newListPager, .more true,
         .subscriptionsPage { Value := [] } (some e)] },
    hpre, hall1, ?_, rfl, rfl, ?_, rfl⟩
  · simp only [subscriptionLoop, hall, List.map_append, List.map_cons, tenantRange_append,
      hpre, tenantRange, hbody]
  · simp only [publicNewCalls, List.filterMap_append] at hcalls ⊢
    simp [htr, hcalls, Event.publicNewArgs]

theorem fatal_abort_witness :
    subscriptionLoop stubEnv sampleAccount 3 sampleStart5 =
      .fatal "AADSTS50076: interaction required" sampleFatal5 ∧
    ∃ st1 st2,
      tenantRange stubEnv sampleAccount 3 ["t1", "t2"] sampleStart5 = .done st1 ∧
      st1.allTenants = sampleStart5.allTenants ++ ["t1", "t2", "t9"] ∧
      subscriptionLoop stubEnv sampleAccount 3 sampleStart5 =
        .fatal "AADSTS50076: interaction required" st2 ∧
      st2.allTenants = st1.allTenants ∧
      st2.trace = st1.trace ++
        [.stdout ("*** listing subscriptions for tenant: " ++ "t3" ++ "\n"),
         .publicNew AzCLIClientID (authorityOf "t3"),
         .newClient sampleAccount, .newListPager, .more true,
         .subscriptionsPage { Value := [] } (some "AADSTS50076: interaction required")] ∧
      publicNewCalls st2.trace = publicNewCalls sampleStart5.trace ++
        [(AzCLIClientID, authorityOf "t1"), (AzCLIClientID, authorityOf "t2"),
         (AzCLIClientID, authorityOf "t3")] ∧
      st2.world.upcoming = [sampleRealm4, sampleRealm5] :=
  ⟨rfl,
   fatal_abort sampleAccount 3 [("t1", sampleRealm1), ("t2", sampleRealm2)]
     [("t4", sampleRealm4), ("t5", sampleRealm5)] ("t3", sampleRealm3)
     "AADSTS50076: interaction required" sampleStart5 rfl rfl (by decide) rfl (by decide)
     (by decide)⟩

end MultiTenantFetch
